import Mathlib

/-!
Shallow embedding of the `mail-builder` core (src/src/mime.rs and
src/src/headers/address.rs) for checking the specification claims.

Modelling conventions:
* The output byte stream is `Bytes := List Nat`; each `write_all` call of the
  Rust code appends the corresponding bytes.  Strings enter the stream through
  `bs`, which views every `Char` as one byte (faithful for ASCII content).
* `io::Result` never fails in the model (the sink is infallible); the only
  failure mode kept is a Rust `panic!`/`unreachable!`, modelled as `none`.
* The encoders (`rfc2047_encode`, `get_encoding_type`, `base64_encode`,
  `quoted_printable_encode`) and the header value types (`ContentType`,
  `Raw`, `Text`, `MessageId`) live in repository files that are not part of
  the sources under verification; they are modelled from the spec and are
  marked as such below.
-/

namespace MailBuilder

/-- The serialized output stream: one `Nat` per byte. -/
abbrev Bytes := List Nat

/-- Byte view of a string: each char stands for one byte (faithful for ASCII). -/
def bs (s : String) : Bytes := s.data.map Char.toNat

/-! ### Ordered association lists, modelling `BTreeMap<String, _>` -/

/-- Strict lexicographic order on char lists by code point, realizing the
byte-wise `Ord` of Rust strings. -/
def charsLt : List Char → List Char → Bool
  | [], [] => false
  | [], _ :: _ => true
  | _ :: _, [] => false
  | a :: as, b :: bs1 =>
    decide (a.toNat < b.toNat) || (a.toNat == b.toNat && charsLt as bs1)

/-- The key order of the header map. -/
def keyLt (a b : String) : Bool := charsLt a.data b.data

/-- Lookup in an association list (`BTreeMap::get`; keys are unique in the map). -/
def assocGet (k : String) : List (String × α) → Option α
  | [] => none
  | (k1, v) :: t => if k1 = k then some v else assocGet k t

/-- Remove a key (`BTreeMap::remove` dropping the returned value). -/
def assocRemove (k : String) : List (String × α) → List (String × α)
  | [] => []
  | (k1, v) :: t => if k1 = k then t else (k1, v) :: assocRemove k t

/-- Insert into a key-sorted association list, replacing an existing binding:
`BTreeMap::insert`.  Iteration order of the map is ascending key order, which
the sorted list realizes directly. -/
def assocInsert (k : String) (v : α) : List (String × α) → List (String × α)
  | [] => [(k, v)]
  | (k1, v1) :: t =>
    if keyLt k k1 then (k, v) :: (k1, v1) :: t
    else if k = k1 then (k, v) :: t
    else (k1, v1) :: assocInsert k v t

/-! ### Encoders (modelled from the spec; src/encoders is not under src/) -/

/-- Modelled from the spec: the base64 alphabet of RFC 4648 (spec 4.3);
`base64_encode` lives in src/encoders/base64.rs which is not among the
sources under verification. -/
def b64Alphabet : Bytes :=
  bs "ABCDEFGHIJKLMNOPQRSTUVWXYZabcdefghijklmnopqrstuvwxyz0123456789+/"

/-- Modelled from the spec: one output character of the base64 alphabet. -/
def b64At (n : Nat) : Nat := b64Alphabet.getD n 61

/-- Modelled from the spec: RFC 4648 base64 of a byte list with `=` padding,
before line folding. -/
def base64Chunks : List Nat → Bytes
  | [] => []
  | [a] => [b64At (a / 4), b64At (a % 4 * 16), 61, 61]
  | [a, b] => [b64At (a / 4), b64At (a % 4 * 16 + b / 16), b64At (b % 16 * 4), 61]
  | a :: b :: c :: rest =>
    [b64At (a / 4), b64At (a % 4 * 16 + b / 16), b64At (b % 16 * 4 + c / 64),
     b64At (c % 64)] ++ base64Chunks rest

/-- Modelled from the spec: split encoded output into lines of 76 characters
separated by CRLF (spec 4.3); `k` is the remaining capacity of the line. -/
def b64Fold : Bytes → Nat → Bytes
  | [], _ => []
  | c :: rest, k => if k = 0 then 13 :: 10 :: c :: b64Fold rest 75 else c :: b64Fold rest (k - 1)

/-- Modelled from the spec: `base64_encode(input, output, false)` — body
context, fixed-width 76-column folding (spec 4.3). -/
def base64_encode (input : List Nat) : Bytes := b64Fold (base64Chunks input) 76

/-- Modelled from the spec: bytes that pass through quoted-printable
unescaped (printable ASCII other than `=`, plus space and tab; spec 4.2). -/
def qpSafe (b : Nat) : Bool :=
  (decide (33 ≤ b) && decide (b ≤ 126) && decide (b ≠ 61)) || decide (b = 32) || decide (b = 9)

/-- Uppercase hexadecimal digit as a byte. -/
def hexDigitUpper (n : Nat) : Nat := if n < 10 then 48 + n else 55 + n

/-- Modelled from the spec: `\n` bytes not preceded by `\r` are normalized to
`\r\n`; this helper mirrors the loop the source itself uses in the 7bit branch
of `detect_encoding` (src/src/mime.rs lines 352-359), with `prev` the previous
byte (initially 0). -/
def crlfGo : List Nat → Nat → List Nat
  | [], _ => []
  | ch :: rest, prev =>
    (if ch = 10 ∧ prev ≠ 13 then [13, 10] else [ch]) ++ crlfGo rest ch

/-- Modelled from the spec: quoted-printable body of `quoted_printable_encode`
(spec 4.2): pass safe bytes, escape the rest as `=XX`, soft-wrap with `=\r\n`
before reaching 76 columns. -/
def qpGo : List Nat → Nat → Bytes
  | [], _ => []
  | b :: rest, col =>
    let enc := if qpSafe b then [b] else [61, hexDigitUpper (b / 16), hexDigitUpper (b % 16)]
    if col + enc.length ≥ 76 then 61 :: 13 :: 10 :: (enc ++ qpGo rest enc.length)
    else enc ++ qpGo rest (col + enc.length)

/-- Modelled from the spec: `quoted_printable_encode(input, output, false, is_body)`
(src/encoders/quoted_printable.rs is not among the sources under verification). -/
def quoted_printable_encode (input : List Nat) (is_body : Bool) : Bytes :=
  qpGo (if is_body then crlfGo input 0 else input) 0

/-- The three RFC 2045 transfer encodings the selector can choose
(`EncodingType` of src/encoders/encode.rs; `None` is rendered `sevenBit`). -/
inductive EncodingType where
  | base64
  | quotedPrintable
  | sevenBit
deriving DecidableEq, Repr

/-- A byte acceptable in 7bit content: ASCII printable or whitespace. -/
def sevenBitSafe (b : Nat) : Bool :=
  decide (b = 9) || decide (b = 10) || decide (b = 13) || (decide (32 ≤ b) && decide (b ≤ 126))

/-- Longest line (split at LF) of a byte list, used by the 7bit check. -/
def maxLineLenGo : List Nat → Nat → Nat → Nat
  | [], cur, mx => max cur mx
  | b :: rest, cur, mx =>
    if b = 10 then maxLineLenGo rest 0 (max cur mx) else maxLineLenGo rest (cur + 1) mx

/-- Modelled from the spec: `get_encoding_type` of src/encoders/encode.rs is
not among the sources under verification.  Spec 4.1: scan once — all bytes
ASCII printable/whitespace with line lengths within limits gives 7bit; a low
proportion of bytes requiring quoted-printable escaping gives quoted-printable;
otherwise base64. -/
def get_encoding_type (input : List Nat) (_is_inline is_body : Bool) : EncodingType :=
  if input.all sevenBitSafe && decide (maxLineLenGo input 0 0 ≤ 76) then .sevenBit
  else if decide ((input.filter (fun b => !qpSafe b)).length * 4 ≤ input.length) then
    (if is_body then .quotedPrintable else .quotedPrintable)
  else .base64

/-- Modelled from the spec: `rfc2047_encode` of src/encoders/encode.rs is not
among the sources under verification.  Bytes safe inside an un-encoded display
name: printable ASCII (spec 4.4). -/
def rfc2047Safe (b : Nat) : Bool := decide (32 ≤ b) && decide (b ≤ 126)

/-- Modelled from the spec: split a name into short groups so that no encoded
word exceeds the line-length limit (spec 4.4). -/
def rfc2047Words (l : List Nat) : List (List Nat) :=
  match l with
  | [] => []
  | b :: rest => (b :: rest.take 14) :: rfc2047Words (rest.drop 14)
termination_by l.length
decreasing_by simp [List.length_drop]; omega

/-- Modelled from the spec: `rfc2047_encode(name, output)` (spec 4.4): a name
of printable ASCII is emitted verbatim; otherwise one or more
`=?utf-8?B?...?=` encoded words are emitted with a fold between words; the
number of bytes written is returned for the caller's column accounting. -/
def rfc2047_encode (name : String) : Bytes × Nat :=
  let nb := bs name
  if nb.all rfc2047Safe then (nb, nb.length)
  else
    let rendered := (rfc2047Words nb).map (fun w => bs "=?utf-8?B?" ++ base64Chunks w ++ bs "?=")
    let o := (rendered.intersperse (bs "\r\n ")).flatten
    (o, o.length)

/-! ### Addresses (src/src/headers/address.rs) -/

/-- RFC5322 e-mail address (src/src/headers/address.rs lines 17-20). -/
structure EmailAddress where
  name : Option String
  email : String
deriving DecidableEq, Repr

/-- RFC5322 address (src/src/headers/address.rs lines 29-33); the fields of
`GroupedAddresses` (name, addresses) are inlined into the `group` variant. -/
inductive Address where
  | address (a : EmailAddress)
  | group (name : Option String) (addresses : List Address)
  | list (items : List Address)

/-- `EmailAddress::write_header` (src/src/headers/address.rs lines 181-204):
returns the written bytes and the returned `usize`. -/
def EmailAddress.write_header (self : EmailAddress) (bytes_written : Nat) : Bytes × Nat :=
  match self.name with
  | some n =>
    let enc := rfc2047_encode n
    let bw1 := bytes_written + enc.2
    if bw1 + self.email.length + 2 ≥ 76 then
      (enc.1 ++ bs "\r\n\t" ++ bs "<" ++ bs self.email ++ bs ">", 1 + self.email.length + 2)
    else
      (enc.1 ++ bs " " ++ bs "<" ++ bs self.email ++ bs ">", (bw1 + 1) + self.email.length + 2)
  | none =>
    (bs "<" ++ bs self.email ++ bs ">", bytes_written + self.email.length + 2)

/-- The member loop of `GroupedAddresses::write_header` (src/src/headers/address.rs
lines 217-235).  `unwrap_address` panics (`none`) when a member is not a plain
address.  Returns written bytes and the final `bytes_written`. -/
def groupGo : List Address → Nat → Option (Bytes × Nat)
  | [], bw => some ([], bw)
  | a :: rest, bw =>
    match a with
    | .address ad =>
      let est := ad.email.length + (match ad.name with | some n => n.length + 3 | none => 0) + 2
      let pre : Bytes := if bw + est ≥ 76 then bs "\r\n\t" else []
      let bw1 := if bw + est ≥ 76 then 1 else bw
      let w := ad.write_header bw1
      let bw2 := bw1 + w.2
      let sep : Bytes := if rest.isEmpty then [] else bs ", "
      let bw3 := if rest.isEmpty then bw2 else bw2 + 2
      (groupGo rest bw3).map (fun r => (pre ++ w.1 ++ sep ++ r.1, r.2))
    | _ => none

/-- `GroupedAddresses::write_header` (src/src/headers/address.rs lines 206-238),
over the inlined fields. -/
def GroupedAddresses.write_header (name : Option String) (addresses : List Address)
    (bytes_written : Nat) : Option (Bytes × Nat) :=
  let pre : Bytes × Nat :=
    match name with
    | some n =>
      let enc := rfc2047_encode n
      (enc.1 ++ bs ": ", bytes_written + enc.2 + 2)
    | none => ([], bytes_written)
  (groupGo addresses pre.2).map (fun r => (pre.1 ++ r.1, r.2))

/-- The element loop of the `Address::List` branch of `Address::write_header`
(src/src/headers/address.rs lines 136-174).  A nested `List` element reaches
`unreachable!()`, modelled as `none`.  Note the loop advances `bytes_written`
by 1 for the two-byte separators. -/
def listGo : List Address → Nat → Option (Bytes × Nat)
  | [], bw => some ([], bw)
  | a :: rest, bw =>
    let est : Nat :=
      match a with
      | .address ad => ad.email.length + (match ad.name with | some n => n.length + 3 | none => 0) + 2
      | .group nm _ => (match nm with | some n => n.length + 2 | none => 0)
      | .list _ => 0
    let pre : Bytes := if bw + est ≥ 76 then bs "\r\n\t" else []
    let bw1 := if bw + est ≥ 76 then 1 else bw
    match a with
    | .address ad =>
      let w := ad.write_header bw1
      let bw2 := bw1 + w.2
      let sep : Bytes := if rest.isEmpty then [] else bs ", "
      let bw3 := if rest.isEmpty then bw2 else bw2 + 1
      (listGo rest bw3).map (fun r => (pre ++ w.1 ++ sep ++ r.1, r.2))
    | .group nm addrs =>
      match GroupedAddresses.write_header nm addrs bw1 with
      | none => none
      | some w =>
        let bw2 := bw1 + w.2
        let sep : Bytes := if rest.isEmpty then [] else bs "; "
        let bw3 := if rest.isEmpty then bw2 else bw2 + 1
        (listGo rest bw3).map (fun r => (pre ++ w.1 ++ sep ++ r.1, r.2))
    | .list _ => none

/-- `Address::write_header` (src/src/headers/address.rs lines 123-179): the
dispatch, the trailing CRLF and the returned `Ok(0)`. -/
def Address.write_header (self : Address) (bytes_written : Nat) : Option (Bytes × Nat) :=
  match self with
  | .address ad => some ((ad.write_header bytes_written).1 ++ bs "\r\n", 0)
  | .group nm addrs =>
    (GroupedAddresses.write_header nm addrs bytes_written).map (fun r => (r.1 ++ bs "\r\n", 0))
  | .list items =>
    (listGo items bytes_written).map (fun r => (r.1 ++ bs "\r\n", 0))

/-! ### Line lengths of a rendered stream -/

/-- Lengths of the lines of a byte stream, splitting at CRLF pairs; `cur` is
the number of bytes already on the current line (the caller's starting
column). -/
def lineLengthsAux : List Nat → Nat → List Nat
  | [], cur => [cur]
  | [_], cur => [cur + 1]
  | x :: y :: rest, cur =>
    if x = 13 ∧ y = 10 then cur :: lineLengthsAux rest 0
    else lineLengthsAux (y :: rest) (cur + 1)

/-! ### Header values of MIME parts

`ContentType` and the `HeaderType` enum live in src/src/headers/ files that are
not among the sources under verification; they are modelled from the spec
(sections 3, 6): a Content-Type-like value carries a MIME type string and
key/value attributes, can report `is_text`/`is_attachment`, and every header
value can render itself given the starting column.  Spec 6 lists the header
value implementations the core consumes: Content-Type, Message-ID, free text
and raw/opaque values. -/

/-- Modelled from the spec: a Content-Type-like header value (spec 6):
a MIME type string plus key/value attributes in a `BTreeMap`. -/
structure ContentType where
  ctype : String
  attributes : List (String × String)
deriving DecidableEq, Repr

/-- `ContentType::new` (constructing from a MIME type string, spec 6). -/
def ContentType.new (t : String) : ContentType := ⟨t, []⟩

/-- Attaching a key/value attribute (spec 6). -/
def ContentType.attribute (self : ContentType) (k v : String) : ContentType :=
  { self with attributes := assocInsert k v self.attributes }

/-- Modelled from the spec: whether the content type denotes textual content
(the MIME type starts with `text/`). -/
def ContentType.is_text (self : ContentType) : Bool :=
  (bs self.ctype).take 5 == bs "text/"

/-- Modelled from the spec: whether the value denotes an attachment
disposition. -/
def ContentType.is_attachment (self : ContentType) : Bool := self.ctype == "attachment"

/-- One double-quote byte. -/
def quoteByte : Nat := 34

/-- Modelled from the spec: rendering of a Content-Type header value into the
stream given the starting column (the model does not fold): the type, then
`; key="value"` per attribute in map order, then CRLF. -/
def ContentType.render (self : ContentType) (_col : Nat) : Bytes :=
  bs self.ctype ++
    (self.attributes.map
      (fun kv => bs "; " ++ bs kv.1 ++ bs "=" ++ [quoteByte] ++ bs kv.2 ++ [quoteByte])).flatten
    ++ bs "\r\n"

/-- The header value enum (`HeaderType` of src/src/headers/mod.rs, which is not
among the sources under verification); modelled from spec 6 with the variants
the core consumes. -/
inductive HeaderType where
  | contentType (ct : ContentType)
  | raw (raw : String)
  | text (t : String)
  | messageId (id : String)
deriving DecidableEq, Repr

/-- `HeaderType::as_content_type`: only a Content-Type-variant value reports
a content type. -/
def as_content_type : HeaderType → Option ContentType
  | .contentType ct => some ct
  | _ => none

/-- Modelled from the spec: `HeaderType::write_header` — each header value
renders itself into the stream given the starting column (spec 6); free text,
message ids and raw values end their line with CRLF. -/
def HeaderType.write_header : HeaderType → Nat → Bytes
  | .contentType ct, col => ct.render col
  | .raw r, _ => bs r ++ bs "\r\n"
  | .text t, _ => bs t ++ bs "\r\n"
  | .messageId id, _ => bs "<" ++ bs id ++ bs ">\r\n"

/-! ### MIME parts (src/src/mime.rs) -/

mutual
/-- `BodyPart` (src/src/mime.rs lines 39-43); binary contents are raw bytes. -/
inductive BodyPart where
  | text (t : String)
  | binary (contents : List Nat)
  | multipart (parts : List MimePart)

/-- `MimePart` (src/src/mime.rs lines 34-37): the `BTreeMap` of headers is the
key-sorted association list. -/
inductive MimePart where
  | mk (headers : List (String × HeaderType)) (contents : BodyPart)
end

/-- The stored header map of a part. -/
def MimePart.headers : MimePart → List (String × HeaderType)
  | .mk hs _ => hs

/-- The stored body of a part. -/
def MimePart.contents : MimePart → BodyPart
  | .mk _ c => c

/-- `MimePart::header` (src/src/mime.rs lines 203-206): insert a custom header,
replacing an existing binding of the same name. -/
def MimePart.header (self : MimePart) (name : String) (value : HeaderType) : MimePart :=
  .mk (assocInsert name value self.headers) self.contents

/-- `MimePart::add_part` (src/src/mime.rs lines 209-213): append a child when
the body is multipart, otherwise do nothing. -/
def MimePart.add_part (self : MimePart) (part : MimePart) : MimePart :=
  match self with
  | .mk hs (.multipart parts) => .mk hs (.multipart (parts ++ [part]))
  | p => p

/-- The low 64 bits multiplicative constant of `make_boundary`. -/
def boundaryMixConstant : Nat := 11400714819323198485

/-- Lowercase hexadecimal digit as a char. -/
def hexDigitLowerChar (n : Nat) : Char :=
  if n < 10 then Char.ofNat (48 + n) else Char.ofNat (87 + n)

/-- Hexadecimal digits of `n` (most significant first), `{:x}` formatting. -/
def toHexGo (n : Nat) (acc : List Char) : List Char :=
  if h : n < 16 then hexDigitLowerChar n :: acc
  else toHexGo (n / 16) (hexDigitLowerChar (n % 16) :: acc)
termination_by n
decreasing_by exact Nat.div_lt_self (by omega) (by omega)

/-- `{:x}` of a `u64`-ish value. -/
def toHex (n : Nat) : String := ⟨toHexGo n []⟩

/-- `make_boundary` (src/src/mime.rs lines 71-89), with the environment made
explicit: `nanos` the clock reading, `hash` the hostname/thread-id hash and
`counter` the calling thread's counter value (which the call increments).
The middle group is `(hash + counter)` wrapped to 64 bits and multiplied by
the fixed odd constant, again wrapped. -/
def make_boundary (nanos hash counter : Nat) : String :=
  toHex nanos ++ "_" ++ toHex ((hash + counter) % 2 ^ 64 * boundaryMixConstant % 2 ^ 64)
    ++ "_" ++ toHex hash

/-- `detect_encoding` (src/src/mime.rs lines 339-366): select the transfer
encoding, write the `Content-Transfer-Encoding` header, a blank line and the
encoded body; in the 7bit branch a body gets bare-LF normalization, other
content is written verbatim. -/
def detect_encoding (input : List Nat) (is_body : Bool) : Bytes :=
  match get_encoding_type input false is_body with
  | .base64 => bs "Content-Transfer-Encoding: base64\r\n\r\n" ++ base64_encode input
  | .quotedPrintable =>
    bs "Content-Transfer-Encoding: quoted-printable\r\n\r\n" ++ quoted_printable_encode input is_body
  | .sevenBit =>
    bs "Content-Transfer-Encoding: 7bit\r\n\r\n" ++ (if is_body then crlfGo input 0 else input)

/-- The header loop of the `BodyPart::Text` branch of `write_part`
(src/src/mime.rs lines 230-241): render each header as `Name: ` plus its
self-rendered value, tracking whether a `Content-Disposition` header reports
an attachment.  Returns the rendered bytes and the final flag. -/
def textHeadersGo : List (String × HeaderType) → Bool → Bytes × Bool
  | [], is_attachment => ([], is_attachment)
  | (n, v) :: t, is_attachment =>
    let a2 := if !is_attachment && n == "Content-Disposition" then
        ((as_content_type v).map ContentType.is_attachment).getD false
      else is_attachment
    let r := textHeadersGo t a2
    (bs n ++ bs ": " ++ v.write_header (n.length + 2) ++ r.1, r.2)

/-- The `BodyPart::Text` leaf of `write_part` (src/src/mime.rs lines 229-243):
headers, then `detect_encoding` with `is_body = !is_attachment`. -/
def text_leaf (hs : List (String × HeaderType)) (t : String) : Bytes :=
  let r := textHeadersGo hs false
  r.1 ++ detect_encoding (bs t) (!r.2)

/-- The header loop of the `BodyPart::Binary` branch of `write_part`
(src/src/mime.rs lines 245-262): as for text, but additionally tracking
whether the `Content-Type` header reports textual content (note the
`else if`). -/
def binaryHeadersGo : List (String × HeaderType) → Bool → Bool → Bytes × Bool × Bool
  | [], is_text, is_attachment => ([], is_text, is_attachment)
  | (n, v) :: t, is_text, is_attachment =>
    let is_text2 := if !is_text && n == "Content-Type" then
        ((as_content_type v).map ContentType.is_text).getD false
      else is_text
    let is_attachment2 := if !is_text && n == "Content-Type" then is_attachment
      else if !is_attachment && n == "Content-Disposition" then
        ((as_content_type v).map ContentType.is_attachment).getD false
      else is_attachment
    let r := binaryHeadersGo t is_text2 is_attachment2
    (bs n ++ bs ": " ++ v.write_header (n.length + 2) ++ r.1, r.2)

/-- The `BodyPart::Binary` leaf of `write_part` (src/src/mime.rs lines
244-269): headers, then always base64 when the content type is not textual,
otherwise `detect_encoding`. -/
def binary_leaf (hs : List (String × HeaderType)) (contents : List Nat) : Bytes :=
  let r := binaryHeadersGo hs false false
  r.1 ++
    (if !r.2.1 then bs "Content-Transfer-Encoding: base64\r\n\r\n" ++ base64_encode contents
     else detect_encoding contents (!r.2.2))

/-- The suffix of a list after the first occurrence of `marker`
(`str::find` plus slicing). -/
def dropThroughMarker (marker : List Char) : List Char → Option (List Char)
  | [] => none
  | c :: rest =>
    if (c :: rest).take marker.length = marker then some ((c :: rest).drop marker.length)
    else dropThroughMarker marker rest

/-- The `boundary="..."` extraction of the raw branch (src/src/mime.rs lines
288-293): find `boundary="`, then the piece up to the next double quote
(`split('"').nth(1)`). -/
def findRawBoundary (r : String) : Option String :=
  (dropThroughMarker ("boundary=".data ++ [Char.ofNat 34]) r.data).map
    (fun suf => ⟨suf.takeWhile (fun c => c ≠ Char.ofNat 34)⟩)

/-- Resolution of the Content-Type header of a multipart branch
(src/src/mime.rs lines 275-311), after `Content-Type: ` has been written:
given the removed header value (if any) it yields the bytes written for the
value, the resolved boundary exactly as the code computes it
(`ct.attributes.remove("boundary")` / the raw parse / the fresh one), and the
next free index into the `make_boundary` supply.  The `_ => panic!` arm is
`none`. -/
def resolve_ct (supply : Nat → String) (idx : Nat) :
    Option HeaderType → Option (Bytes × Option String × Nat)
  | some (.contentType ct) =>
    let vacant := (assocGet "boundary" ct.attributes).isNone
    let attrs := if vacant then assocInsert "boundary" (supply idx) ct.attributes else ct.attributes
    let idx2 := if vacant then idx + 1 else idx
    some ((ContentType.mk ct.ctype attrs).render 14, assocGet "boundary" attrs, idx2)
  | some (.raw r) =>
    match findRawBoundary r with
    | some b => some ([], some b, idx)
    | none =>
      some (bs r ++ bs "; boundary=" ++ [quoteByte] ++ bs (supply idx) ++ [quoteByte] ++ bs "\r\n",
        some (supply idx), idx + 1)
  | some _ => none
  | none =>
    some (((ContentType.new "multipart/mixed").attribute "boundary" (supply idx)).render 14,
      some (supply idx), idx + 1)

/-- Rendering of the remaining headers of a multipart branch
(src/src/mime.rs lines 313-317). -/
def headers_out (hs : List (String × HeaderType)) : Bytes :=
  (hs.map (fun nv => bs nv.1 ++ bs ": " ++ nv.2.write_header (nv.1.length + 2))).flatten

mutual
/-- Weight of a part: its own count plus its descendants'. -/
def MimePart.weight : MimePart → Nat
  | .mk _ b => 1 + b.weight

/-- Weight of a body: the total count of descendant parts. -/
def BodyPart.weight : BodyPart → Nat
  | .text _ => 0
  | .binary _ => 0
  | .multipart ps => listWeight ps

/-- Total weight of a list of parts. -/
def listWeight : List MimePart → Nat
  | [] => 0
  | p :: t => p.weight + listWeight t
end

/-- Total weight of the saved traversal stack. -/
def stackWeight : List (List MimePart × Option String) → Nat
  | [] => 0
  | (l, _) :: t => listWeight l + stackWeight t

/-- The loop of `MimePart::write_part` (src/src/mime.rs lines 221-334): `it`
is the current sibling cursor, `boundary` the active boundary, `stack` the
saved `(cursor, boundary)` frames, and `idx` the next free index into the
`make_boundary` supply.  When the cursor is exhausted the closing delimiter is
written (if a boundary is active) and the stack popped; a part taken from the
cursor first gets its opening delimiter (if a boundary is active) and is then
dispatched on its body. -/
def loopGo (supply : Nat → String) :
    List MimePart → Option String → List (List MimePart × Option String) → Nat → Option Bytes
  | [], b, stack, idx =>
    let closing : Bytes :=
      match b with | some bd => bs "\r\n--" ++ bs bd ++ bs "--\r\n" | none => []
    match stack with
    | [] => some closing
    | (pit, pb) :: prev => (loopGo supply pit pb prev idx).map (fun tl => closing ++ tl)
  | p :: rest, b, stack, idx =>
    let opened : Bytes :=
      match b with | some bd => bs "\r\n--" ++ bs bd ++ bs "\r\n" | none => []
    match p with
    | .mk hs (.text t) =>
      (loopGo supply rest b stack idx).map (fun tl => opened ++ text_leaf hs t ++ tl)
    | .mk hs (.binary bin) =>
      (loopGo supply rest b stack idx).map (fun tl => opened ++ binary_leaf hs bin ++ tl)
    | .mk hs (.multipart cs) =>
      match resolve_ct supply idx (assocGet "Content-Type" hs) with
      | none => none
      | some (ctOut, b2, idx2) =>
        (loopGo supply cs b2
            (match b with | some bd => (rest, some bd) :: stack | none => stack) idx2).map
          (fun tl =>
            opened ++ bs "Content-Type: " ++ ctOut ++
              headers_out (assocRemove "Content-Type" hs) ++ bs "\r\n" ++ tl)
termination_by it _ stack _ => 2 * (listWeight it + stackWeight stack) + stack.length
decreasing_by
  all_goals simp [listWeight, stackWeight, MimePart.weight, BodyPart.weight]
  all_goals cases b <;> simp [stackWeight, listWeight] <;> omega

/-- `MimePart::write_part` (src/src/mime.rs lines 216-336), with the
`make_boundary` environment made explicit as a supply of fresh boundary
strings consumed in traversal order. -/
def MimePart.write_part (supply : Nat → String) (self : MimePart) : Option Bytes :=
  loopGo supply [self] none [] 0

/-! ### The structural specification renderer

`renderPartSpec`/`renderChildrenSpec` follow the spec's recursive description
of the multipart output (spec 4.6, 8): a multipart node writes its resolved
Content-Type, its remaining headers and a blank line, then for each child
exactly one opening delimiter `\r\n--boundary\r\n` followed by the child's own
output, and finally exactly one closing delimiter `\r\n--boundary--\r\n`.
Children of a node therefore sit strictly between that node's blank line and
its closing delimiter: delimiters of a nested multipart never appear outside
its parent's opening/closing pair.  `MimePart.write_part` is proved equal to
this renderer below. -/

mutual
/-- Specification renderer for one part; returns the bytes and the next free
supply index. -/
def renderPartSpec (supply : Nat → String) (idx : Nat) : MimePart → Option (Bytes × Nat)
  | .mk hs (.text t) => some (text_leaf hs t, idx)
  | .mk hs (.binary bin) => some (binary_leaf hs bin, idx)
  | .mk hs (.multipart cs) =>
    match resolve_ct supply idx (assocGet "Content-Type" hs) with
    | none => none
    | some (ctOut, b2, idx2) =>
      match renderChildrenSpec supply idx2 b2 cs with
      | none => none
      | some (body, idx3) =>
        some (bs "Content-Type: " ++ ctOut ++ headers_out (assocRemove "Content-Type" hs) ++
            bs "\r\n" ++ body ++
            (match b2 with
             | some bd => bs "\r\n--" ++ bs bd ++ bs "--\r\n"
             | none => []),
          idx3)

/-- Specification renderer for the children of a multipart node: one opening
delimiter per child, then the child itself. -/
def renderChildrenSpec (supply : Nat → String) (idx : Nat) (b : Option String) :
    List MimePart → Option (Bytes × Nat)
  | [] => some ([], idx)
  | c :: cs =>
    match renderPartSpec supply idx c with
    | none => none
    | some (o, idx1) =>
      match renderChildrenSpec supply idx1 b cs with
      | none => none
      | some (os, idx2) =>
        some ((match b with
               | some bd => bs "\r\n--" ++ bs bd ++ bs "\r\n"
               | none => []) ++ o ++ os,
          idx2)
end

/-- The specification rendering of a whole tree. -/
def write_part_spec (supply : Nat → String) (p : MimePart) : Option Bytes :=
  (renderPartSpec supply 0 p).map Prod.fst

/-- Decidable well-formedness of a list element for the fold-invariant
theorem: a display-name-free address whose email has at most 72 bytes and
contains no CR byte. -/
def plainShortAddress : Address → Bool
  | .address a =>
    (match a.name with | none => true | some _ => false) &&
      decide (a.email.length ≤ 72) && decide ((13 : Nat) ∉ bs a.email)
  | _ => false

/-- Decidable test for a plain (non-group, non-list) element. -/
def isPlainAddress : Address → Bool
  | .address _ => true
  | _ => false

/-! ## Theorems -/

/-! ### The key order and association list lemmas -/

theorem charsLt_irrefl (l : List Char) : charsLt l l = false := by
  induction l with
  | nil => rfl
  | cons a t ih => simp [charsLt, ih]

theorem charsLt_trans {a b c : List Char} (h1 : charsLt a b = true)
    (h2 : charsLt b c = true) : charsLt a c = true := by
  induction a generalizing b c with
  | nil => cases b <;> cases c <;> simp_all [charsLt]
  | cons x xs ih =>
    cases b with
    | nil => simp [charsLt] at h1
    | cons y ys =>
      cases c with
      | nil => simp [charsLt] at h2
      | cons z zs =>
        simp only [charsLt, Bool.or_eq_true, Bool.and_eq_true, decide_eq_true_eq,
          beq_iff_eq] at h1 h2 ⊢
        rcases h1 with h1 | ⟨h1e, h1r⟩ <;> rcases h2 with h2 | ⟨h2e, h2r⟩
        · exact Or.inl (lt_trans h1 h2)
        · exact Or.inl (h2e ▸ h1)
        · exact Or.inl (h1e ▸ h2)
        · exact Or.inr ⟨h1e.trans h2e, ih h1r h2r⟩

theorem charsLt_trichotomy (a b : List Char) :
    charsLt a b = true ∨ a = b ∨ charsLt b a = true := by
  induction a generalizing b with
  | nil => cases b <;> simp [charsLt]
  | cons x xs ih =>
    cases b with
    | nil => simp [charsLt]
    | cons y ys =>
      rcases Nat.lt_trichotomy x.toNat y.toNat with h | h | h
      · left; simp [charsLt, h]
      · have hxy : x = y := by
          have h2 := congrArg Char.ofNat h
          rwa [Char.ofNat_toNat, Char.ofNat_toNat] at h2
        rcases ih ys with h1 | h1 | h1
        · left
          simp only [charsLt, Bool.or_eq_true, Bool.and_eq_true, decide_eq_true_eq, beq_iff_eq]
          exact Or.inr ⟨h, h1⟩
        · right; left; rw [hxy, h1]
        · right; right
          simp only [charsLt, Bool.or_eq_true, Bool.and_eq_true, decide_eq_true_eq, beq_iff_eq]
          exact Or.inr ⟨h.symm, h1⟩
      · right; right; simp [charsLt, h]

theorem keyLt_irrefl (a : String) : keyLt a a = false := charsLt_irrefl a.data

theorem keyLt_trans {a b c : String} (h1 : keyLt a b = true) (h2 : keyLt b c = true) :
    keyLt a c = true := charsLt_trans h1 h2

theorem keyLt_trichotomy (a b : String) : keyLt a b = true ∨ a = b ∨ keyLt b a = true := by
  rcases charsLt_trichotomy a.data b.data with h | h | h
  · exact Or.inl h
  · exact Or.inr (Or.inl (String.ext h))
  · exact Or.inr (Or.inr h)

theorem keyLt_asymm {a b : String} (h1 : keyLt a b = true) : ¬keyLt b a = true := by
  intro h2
  have h3 := keyLt_trans h1 h2
  rw [keyLt_irrefl] at h3
  exact Bool.false_ne_true h3

theorem assocGet_insert_self (k : String) (v : α) (hs : List (String × α)) :
    assocGet k (assocInsert k v hs) = some v := by
  induction hs with
  | nil => simp [assocInsert, assocGet]
  | cons h t ih =>
    obtain ⟨k1, v1⟩ := h
    by_cases hlt : keyLt k k1 = true
    · simp [assocInsert, assocGet, hlt]
    · by_cases heq : k = k1
      · subst heq
        simp [assocInsert, assocGet, keyLt_irrefl, assocGet]
      · have hne : k1 ≠ k := fun h => heq h.symm
        simp [assocInsert, assocGet, hlt, heq, hne, ih]

theorem assocInsert_mem_keys (k b : String) (v : α) (hs : List (String × α))
    (hb : b ∈ (assocInsert k v hs).map Prod.fst) : b = k ∨ b ∈ hs.map Prod.fst := by
  induction hs with
  | nil => simpa [assocInsert] using hb
  | cons h t ih =>
    obtain ⟨k1, v1⟩ := h
    by_cases hlt : keyLt k k1 = true
    · simp only [assocInsert, if_pos hlt, List.map_cons, List.mem_cons] at hb ⊢
      tauto
    · by_cases heq : k = k1
      · simp only [assocInsert, if_neg hlt, if_pos heq, List.map_cons, List.mem_cons] at hb ⊢
        tauto
      · simp only [assocInsert, if_neg hlt, if_neg heq, List.map_cons, List.mem_cons] at hb ⊢
        rcases hb with hb | hb
        · tauto
        · rcases ih hb with hb | hb <;> tauto

theorem assocInsert_sorted (k : String) (v : α) (hs : List (String × α))
    (hsort : (hs.map Prod.fst).Sorted (fun a b => keyLt a b = true)) :
    ((assocInsert k v hs).map Prod.fst).Sorted (fun a b => keyLt a b = true) := by
  induction hs with
  | nil => simp [assocInsert]
  | cons h t ih =>
    obtain ⟨k1, v1⟩ := h
    rw [List.map_cons, List.sorted_cons] at hsort
    by_cases hlt : keyLt k k1 = true
    · rw [assocInsert, if_pos hlt, List.map_cons, List.sorted_cons]
      refine ⟨?_, by rw [List.map_cons, List.sorted_cons]; exact hsort⟩
      intro b hb
      rw [List.map_cons, List.mem_cons] at hb
      rcases hb with h1 | h1
      · exact h1 ▸ hlt
      · exact keyLt_trans hlt (hsort.1 b h1)
    · by_cases heq : k = k1
      · rw [assocInsert, if_neg hlt, if_pos heq, List.map_cons, List.sorted_cons]
        exact ⟨fun b hb => heq ▸ hsort.1 b hb, hsort.2⟩
      · rw [assocInsert, if_neg hlt, if_neg heq, List.map_cons, List.sorted_cons]
        refine ⟨?_, ih hsort.2⟩
        intro b hb
        rcases assocInsert_mem_keys k b v t hb with h1 | h1
        · rcases keyLt_trichotomy k k1 with h2 | h2 | h2
          · exact absurd h2 hlt
          · exact absurd h2 heq
          · exact h1 ▸ h2
        · exact hsort.1 b h1

theorem assocInsert_keys_of_mem (k : String) (v : α) (hs : List (String × α))
    (hsort : (hs.map Prod.fst).Sorted (fun a b => keyLt a b = true))
    (hmem : k ∈ hs.map Prod.fst) :
    (assocInsert k v hs).map Prod.fst = hs.map Prod.fst := by
  induction hs with
  | nil => simp at hmem
  | cons h t ih =>
    obtain ⟨k1, v1⟩ := h
    rw [List.map_cons, List.sorted_cons] at hsort
    rw [List.map_cons, List.mem_cons] at hmem
    by_cases heq : k = k1
    · have hlt : ¬keyLt k k1 = true := by
        rw [heq, keyLt_irrefl]
        exact Bool.false_ne_true
      rw [assocInsert, if_neg hlt, if_pos heq, List.map_cons, List.map_cons, heq]
    · have hmem2 : k ∈ t.map Prod.fst := by tauto
      have hlt : ¬keyLt k k1 = true := keyLt_asymm (hsort.1 k hmem2)
      rw [assocInsert, if_neg hlt, if_neg heq, List.map_cons, List.map_cons, ih hsort.2 hmem2]

theorem textHeadersGo_out (hs : List (String × HeaderType)) (is_att : Bool) :
    (textHeadersGo hs is_att).1 =
      (hs.map (fun nv => bs nv.1 ++ bs ": " ++ nv.2.write_header (nv.1.length + 2))).flatten := by
  induction hs generalizing is_att with
  | nil => simp [textHeadersGo]
  | cons h t ih =>
    obtain ⟨n, v⟩ := h
    simp [textHeadersGo, ih]

/-! ### C10 -/

/-- C10: calling `add_part` on a part whose body is Text or Binary is a silent
no-op, leaving headers and contents unchanged; only a Multipart body gets the
given part appended at the end of its children, all other fields unchanged. -/
theorem c10_add_part_frame (p q : MimePart) :
    ((∀ t, p.contents = .text t → p.add_part q = p) ∧
      (∀ bin, p.contents = .binary bin → p.add_part q = p)) ∧
    (∀ cs, p.contents = .multipart cs →
      p.add_part q = .mk p.headers (.multipart (cs ++ [q]))) := by
  obtain ⟨hs, c⟩ := p
  cases c <;>
    simp [MimePart.add_part, MimePart.contents, MimePart.headers]

/-- Witness for C10 at concrete parts: a text part is unchanged and a
multipart body gets the new child appended. -/
theorem c10_add_part_frame_witness :
    (MimePart.mk [] (.text "x")).add_part (.mk [] (.text "y")) = .mk [] (.text "x") ∧
    (MimePart.mk [] (.multipart [])).add_part (.mk [] (.text "y")) =
      .mk [] (.multipart [.mk [] (.text "y")]) :=
  ⟨(c10_add_part_frame (.mk [] (.text "x")) (.mk [] (.text "y"))).1.1 "x" rfl,
   (c10_add_part_frame (.mk [] (.multipart [])) (.mk [] (.text "y"))).2 [] rfl⟩

/-! ### C5 -/

/-- C5 counterexample: headers are not written in insertion order.  Inserting
`X-B` first and `A-H` second stores and renders them in ascending name order
(`A-H` before `X-B`), so the rendered header block differs from the
insertion-order rendering. -/
theorem c5_insertion_order_counterexample :
    ((((MimePart.mk [] (.text "x")).header "X-B" (.raw "1")).header "A-H"
        (.raw "2")).headers.map Prod.fst = ["A-H", "X-B"]) ∧
    (textHeadersGo (((MimePart.mk [] (.text "x")).header "X-B" (.raw "1")).header "A-H"
        (.raw "2")).headers false).1 = bs "A-H: 2\r\nX-B: 1\r\n" ∧
    (textHeadersGo (((MimePart.mk [] (.text "x")).header "X-B" (.raw "1")).header "A-H"
        (.raw "2")).headers false).1 ≠ bs "X-B: 1\r\nA-H: 2\r\n" := by
  refine ⟨by decide, by decide, by decide⟩

/-- C5 as amended: the header mapping is a key-sorted map (`BTreeMap`), so the
headers are written in ascending lexicographic order of header name, not in
insertion order; inserting a header under an existing name replaces the
previous value (keys unchanged, lookup yields the new value), and the header
output of a part enumerates the stored map in its (sorted) order. -/
theorem c5_headers_sorted_replace (hs : List (String × HeaderType)) (k : String)
    (v : HeaderType) (is_att : Bool)
    (hsort : (hs.map Prod.fst).Sorted (fun a b => keyLt a b = true)) :
    ((assocInsert k v hs).map Prod.fst).Sorted (fun a b => keyLt a b = true) ∧
    (k ∈ hs.map Prod.fst → (assocInsert k v hs).map Prod.fst = hs.map Prod.fst) ∧
    assocGet k (assocInsert k v hs) = some v ∧
    (textHeadersGo hs is_att).1 =
      (hs.map (fun nv => bs nv.1 ++ bs ": " ++ nv.2.write_header (nv.1.length + 2))).flatten :=
  ⟨assocInsert_sorted k v hs hsort,
   fun hmem => assocInsert_keys_of_mem k v hs hsort hmem,
   assocGet_insert_self k v hs,
   textHeadersGo_out hs is_att⟩

/-- Witness for C5 at a concrete sorted header map: replacing the existing
`Content-Type` binding keeps the keys and updates the value. -/
theorem c5_headers_sorted_replace_witness :
    ((assocInsert "Content-Type" (HeaderType.raw "r")
        [("Content-Type", HeaderType.text "t"), ("X-A", HeaderType.text "u")]).map
      Prod.fst).Sorted (fun a b => keyLt a b = true) ∧
    (("Content-Type" : String) ∈
        [("Content-Type", HeaderType.text "t"), ("X-A", HeaderType.text "u")].map Prod.fst →
      (assocInsert "Content-Type" (HeaderType.raw "r")
          [("Content-Type", HeaderType.text "t"), ("X-A", HeaderType.text "u")]).map Prod.fst =
        [("Content-Type", HeaderType.text "t"), ("X-A", HeaderType.text "u")].map Prod.fst) ∧
    assocGet "Content-Type" (assocInsert "Content-Type" (HeaderType.raw "r")
        [("Content-Type", HeaderType.text "t"), ("X-A", HeaderType.text "u")]) =
      some (HeaderType.raw "r") ∧
    (textHeadersGo [("Content-Type", HeaderType.text "t"), ("X-A", HeaderType.text "u")]
        false).1 =
      ([("Content-Type", HeaderType.text "t"), ("X-A", HeaderType.text "u")].map
        (fun nv => bs nv.1 ++ bs ": " ++ nv.2.write_header (nv.1.length + 2))).flatten :=
  c5_headers_sorted_replace
    [("Content-Type", HeaderType.text "t"), ("X-A", HeaderType.text "u")]
    "Content-Type" (HeaderType.raw "r") false (by decide)

/-! ### C7 -/

/-- C7 counterexample: for an address without a display name,
`EmailAddress::write_header` never folds — from column 50 with a 70-byte
email, appending ` <email>` crosses column 76, yet the angle-bracketed email
is written with no `\r\n\t` fold (no CR byte appears in the output) and the
returned column runs past the limit. -/
theorem c7_no_fold_without_name_counterexample :
    50 + (String.mk (List.replicate 70 'a')).length + 2 ≥ 76 ∧
    (EmailAddress.mk none ⟨List.replicate 70 'a'⟩).write_header 50 =
      (bs "<" ++ bs ⟨List.replicate 70 'a'⟩ ++ bs ">", 50 + 70 + 2) ∧
    (13 : Nat) ∉ ((EmailAddress.mk none ⟨List.replicate 70 'a'⟩).write_header 50).1 := by
  refine ⟨by decide, by decide, by decide⟩

/-- C7 as amended: the fold check exists only when a display name is present:
after rendering the name, if appending ` <email>` would cross column 76 the
fold `\r\n\t` is written and the column resets to 1 before the bracketed
email; an address without a display name writes `<email>` unconditionally,
with no fold check at all. -/
theorem c7_fold_after_name (nm email : String) (bw : Nat)
    (h : bw + (rfc2047_encode nm).2 + email.length + 2 ≥ 76) :
    (EmailAddress.mk (some nm) email).write_header bw =
      ((rfc2047_encode nm).1 ++ bs "\r\n\t" ++ bs "<" ++ bs email ++ bs ">",
        1 + email.length + 2) ∧
    (∀ e2 bw2, (EmailAddress.mk none e2).write_header bw2 =
      (bs "<" ++ bs e2 ++ bs ">", bw2 + e2.length + 2)) := by
  constructor
  · simp only [EmailAddress.write_header, if_pos h]
  · intro e2 bw2
    rfl

/-- Witness for C7: a one-letter ASCII name and a 73-byte email from column 0
trigger the fold. -/
theorem c7_fold_after_name_witness :
    (EmailAddress.mk (some "N") ⟨List.replicate 73 'a'⟩).write_header 0 =
      ((rfc2047_encode "N").1 ++ bs "\r\n\t" ++ bs "<" ++ bs ⟨List.replicate 73 'a'⟩ ++ bs ">",
        1 + (String.mk (List.replicate 73 'a')).length + 2) ∧
    (∀ e2 bw2, (EmailAddress.mk none e2).write_header bw2 =
      (bs "<" ++ bs e2 ++ bs ">", bw2 + e2.length + 2)) :=
  c7_fold_after_name "N" ⟨List.replicate 73 'a'⟩ 0 (by decide)

/-! ### C6 -/

/-- C6 counterexample: a `List` whose first element is itself a `List` makes
`Address::write_header` panic (`unreachable!`, modelled `none`) instead of
rendering the nested element as zero width and continuing with the remaining
elements. -/
theorem c6_nested_list_counterexample :
    Address.write_header (.list [.list [], .address ⟨none, "a@b"⟩]) 4 = none := by
  decide

/-- C6 as amended: the nested `List` element is given width 0 by the fold
estimate, but the renderer does crash on it: for any list made of plain
addresses followed by a nested `List` element, `write_header` reaches the
`unreachable!` dispatch arm and aborts instead of continuing. -/
theorem c6_nested_list_panics (xs ys zs : List Address) (bw : Nat)
    (h : xs.all isPlainAddress = true) :
    Address.write_header (.list (xs ++ .list ys :: zs)) bw = none := by
  rw [Address.write_header]
  suffices hgo : ∀ bw2, listGo (xs ++ .list ys :: zs) bw2 = none by
    rw [hgo bw]
    rfl
  induction xs with
  | nil =>
    intro bw2
    simp [listGo]
  | cons x t ih =>
    intro bw2
    rw [List.all_cons, Bool.and_eq_true] at h
    cases x with
    | address ad =>
      rw [List.cons_append, listGo]
      simp only [ih h.2]
      rfl
    | group nm addrs => simp [isPlainAddress] at h
    | list items => simp [isPlainAddress] at h

/-- Witness for C6: one plain address followed by a nested empty list. -/
theorem c6_nested_list_panics_witness :
    Address.write_header (.list ([.address ⟨none, "a@b"⟩] ++ .list [] :: [])) 4 = none :=
  c6_nested_list_panics [.address ⟨none, "a@b"⟩] [] [] 4 (by decide)

/-! ### C8 -/

theorem crlfGo_eq_zip (l : List Nat) (prev : Nat) :
    crlfGo l prev =
      ((List.zip (prev :: l) l).map
        (fun pc => if pc.2 = 10 ∧ pc.1 ≠ 13 then [13, 10] else [pc.2])).flatten := by
  induction l generalizing prev with
  | nil => rfl
  | cons a rest ih => simp [crlfGo, ih]

/-- C8: when the 7bit encoding is selected, `detect_encoding` writes the CTE
header and blank line, then for body content every LF byte that is not
preceded by CR becomes the pair CR LF while every other byte passes through
unchanged and in order (each byte is emitted according to its predecessor,
with initial predecessor 0); when the content is not a body the input bytes
are written verbatim. -/
theorem c8_seven_bit_normalization (input : List Nat) :
    (get_encoding_type input false true = .sevenBit →
      detect_encoding input true =
        bs "Content-Transfer-Encoding: 7bit\r\n\r\n" ++
          ((List.zip (0 :: input) input).map
            (fun pc => if pc.2 = 10 ∧ pc.1 ≠ 13 then [13, 10] else [pc.2])).flatten) ∧
    (get_encoding_type input false false = .sevenBit →
      detect_encoding input false = bs "Content-Transfer-Encoding: 7bit\r\n\r\n" ++ input) := by
  constructor
  · intro h
    simp [detect_encoding, h, crlfGo_eq_zip]
  · intro h
    simp [detect_encoding, h]

/-- Witness for C8 on the body `H\nl`: the bare LF becomes CRLF. -/
theorem c8_seven_bit_normalization_witness :
    detect_encoding [72, 10, 105] true =
      bs "Content-Transfer-Encoding: 7bit\r\n\r\n" ++
        ((List.zip (0 :: [72, 10, 105]) [72, 10, 105]).map
          (fun pc => if pc.2 = 10 ∧ pc.1 ≠ 13 then [13, 10] else [pc.2])).flatten :=
  (c8_seven_bit_normalization [72, 10, 105]).1 (by decide)

/-! ### C3 -/

theorem binaryHeadersGo_is_text_false (hs : List (String × HeaderType)) (is_att : Bool)
    (h : hs.all (fun nv =>
      !(nv.1 == "Content-Type" &&
        ((as_content_type nv.2).map ContentType.is_text).getD false)) = true) :
    (binaryHeadersGo hs false is_att).2.1 = false := by
  induction hs generalizing is_att with
  | nil => rfl
  | cons nv t ih =>
    rw [List.all_cons, Bool.and_eq_true] at h
    obtain ⟨n, v⟩ := nv
    rw [binaryHeadersGo]
    by_cases hct : (n == "Content-Type") = true
    · have hfalse : ((as_content_type v).map ContentType.is_text).getD false = false := by
        cases hb : ((as_content_type v).map ContentType.is_text).getD false
        · rfl
        · rw [hct, hb] at h
          simp at h
      simp only [Bool.not_false, Bool.true_and, hct, hfalse, if_pos]
      exact ih is_att h.2
    · simp only [Bool.not_false, Bool.true_and, hct, Bool.false_and, if_neg, if_false]
      by_cases hcd : (!is_att && (n == "Content-Disposition")) = true
      · simp only [hcd, if_pos]
        exact ih _ h.2
      · simp only [hcd, if_neg, if_false]
        exact ih _ h.2

/-- C3: for every binary part whose Content-Type header does not report
textual content, `write_part` emits `Content-Transfer-Encoding: base64`, a
blank line and the base64 encoding of the body bytes, for all body contents
and regardless of the transfer-encoding heuristic (in particular for binary
attachments with a non-textual content type). -/
theorem c3_binary_nontext_base64 (supply : Nat → String) (hs : List (String × HeaderType))
    (bin : List Nat)
    (h : hs.all (fun nv =>
      !(nv.1 == "Content-Type" &&
        ((as_content_type nv.2).map ContentType.is_text).getD false)) = true) :
    MimePart.write_part supply (.mk hs (.binary bin)) =
      some ((binaryHeadersGo hs false false).1 ++
        bs "Content-Transfer-Encoding: base64\r\n\r\n" ++ base64_encode bin) := by
  rw [MimePart.write_part, loopGo, loopGo]
  simp only [Option.map_some, List.nil_append]
  rw [binary_leaf, binaryHeadersGo_is_text_false hs false h]
  simp [List.append_assoc]

/-- Witness for C3: a PDF attachment part with three body bytes. -/
theorem c3_binary_nontext_base64_witness :
    MimePart.write_part (fun _ => "b")
        (.mk [("Content-Disposition", .contentType (ContentType.new "attachment")),
              ("Content-Type", .contentType (ContentType.new "application/pdf"))]
          (.binary [1, 2, 3])) =
      some ((binaryHeadersGo
          [("Content-Disposition", .contentType (ContentType.new "attachment")),
           ("Content-Type", .contentType (ContentType.new "application/pdf"))] false false).1 ++
        bs "Content-Transfer-Encoding: base64\r\n\r\n" ++ base64_encode [1, 2, 3]) :=
  c3_binary_nontext_base64 (fun _ => "b")
    [("Content-Disposition", .contentType (ContentType.new "attachment")),
     ("Content-Type", .contentType (ContentType.new "application/pdf"))]
    [1, 2, 3] (by decide)


/-! ### C2 -/

theorem bs_length (s : String) : (bs s).length = s.length := by
  rw [bs, List.length_map]
  rfl

theorem lla_crlf (rest : List Nat) (c : Nat) :
    lineLengthsAux (13 :: 10 :: rest) c = c :: lineLengthsAux rest 0 := rfl

theorem lla_tab (x : List Nat) : lineLengthsAux (9 :: x) 0 = lineLengthsAux x 1 := by
  cases x with
  | nil => rfl
  | cons y t =>
    rw [lineLengthsAux, if_neg (by simp)]

theorem lla_flat (l rest : List Nat) (c : Nat) : (13 : Nat) ∉ l →
    lineLengthsAux (l ++ rest) c = lineLengthsAux rest (c + l.length) := by
  induction l generalizing c with
  | nil =>
    intro _
    simp
  | cons x l2 ih =>
    intro h
    have hx : x ≠ 13 := by
      intro hx
      exact h (by rw [hx]; exact List.mem_cons_self 13 l2)
    have h2 : (13 : Nat) ∉ l2 := fun hm => h (List.mem_cons_of_mem x hm)
    rw [List.cons_append]
    cases hl : l2 ++ rest with
    | nil =>
      rcases List.append_eq_nil.mp hl with ⟨hl2, hr⟩
      subst hl2
      subst hr
      simp [lineLengthsAux]
    | cons y t =>
      rw [lineLengthsAux, if_neg (by tauto), ← hl, ih (c + 1) h2]
      congr 1
      simp
      omega

theorem plainShortAddress_spec {a : Address} (h : plainShortAddress a = true) :
    ∃ e, a = .address ⟨none, e⟩ ∧ e.length ≤ 72 ∧ (13 : Nat) ∉ bs e := by
  cases a with
  | address ad =>
    obtain ⟨nm, e⟩ := ad
    cases nm with
    | none =>
      simp only [plainShortAddress, Bool.and_eq_true, decide_eq_true_eq] at h
      exact ⟨e, rfl, h.1.2, h.2⟩
    | some n => simp [plainShortAddress] at h
  | group nm addrs => simp [plainShortAddress] at h
  | list items => simp [plainShortAddress] at h

theorem listGo_cons_plain (e : String) (rest : List Address) (bw : Nat) :
    listGo (.address ⟨none, e⟩ :: rest) bw =
      (listGo rest
          ((if 76 ≤ bw + (e.length + 2) then 1 else bw) +
            ((if 76 ≤ bw + (e.length + 2) then 1 else bw) + e.length + 2) +
            (if rest.isEmpty then 0 else 1))).map
        (fun r =>
          ((if 76 ≤ bw + (e.length + 2) then bs "\r\n\t" else []) ++
            ((bs "<" ++ (bs e ++ bs ">")) ++ ((if rest.isEmpty then [] else bs ", ") ++ r.1)),
            r.2)) := by
  rw [listGo]
  by_cases hf : 76 ≤ bw + (e.length + 2)
  · by_cases hre : rest.isEmpty = true
    · simp [EmailAddress.write_header, hf, hre, Nat.add_assoc]
    · simp [EmailAddress.write_header, hf, hre, Nat.add_assoc]
  · by_cases hre : rest.isEmpty = true
    · simp [EmailAddress.write_header, hf, hre, Nat.add_assoc]
    · simp [EmailAddress.write_header, hf, hre, Nat.add_assoc]

theorem lla_chunk (e : String) (os : Bytes) (c0 : Nat) (hcr : (13 : Nat) ∉ bs e) :
    lineLengthsAux (bs "<" ++ (bs e ++ (bs ">" ++ os))) c0 =
      lineLengthsAux os (c0 + (e.length + 2)) := by
  rw [lla_flat (bs "<") _ _ (by decide), lla_flat (bs e) _ _ hcr,
    lla_flat (bs ">") _ _ (by decide)]
  congr 1
  have h1 : (bs "<").length = 1 := by decide
  have h2 : (bs ">").length = 1 := by decide
  rw [h1, h2, bs_length]
  omega

theorem c2aux (items : List Address) : ∀ bw, 1 ≤ bw →
    items.all plainShortAddress = true →
    ∃ out bwf, listGo items bw = some (out, bwf) ∧ 1 ≤ bwf ∧
      ∀ c, c ≤ bw → ∀ L ∈ lineLengthsAux (out ++ [13, 10]) c, L ≤ max 77 c := by
  induction items with
  | nil =>
    intro bw hbw _
    refine ⟨[], bw, rfl, hbw, ?_⟩
    intro c hc L hL
    rw [List.nil_append, lla_crlf] at hL
    rcases List.mem_cons.mp hL with h1 | h1
    · exact h1 ▸ le_max_right 77 c
    · simp only [lineLengthsAux, List.mem_singleton] at h1
      subst h1
      exact le_trans (Nat.zero_le 77) (le_max_left 77 c)
  | cons a rest ih =>
    intro bw hbw hall
    rw [List.all_cons, Bool.and_eq_true] at hall
    obtain ⟨e, rfl, hlen, hcr⟩ := plainShortAddress_spec hall.1
    have hsl2 : (bs ", ").length = 2 := by decide
    have hsep13 : (13 : Nat) ∉ bs ", " := by decide
    have hpre : bs "\r\n\t" = 13 :: 10 :: 9 :: [] := by decide
    rw [listGo_cons_plain]
    by_cases hf : 76 ≤ bw + (e.length + 2)
    · by_cases hre : rest.isEmpty = true
      · -- fold taken, last element (no separator)
        simp only [if_pos hf, if_pos hre]
        obtain ⟨os, bwf, heq, hbwf, hlines⟩ := ih (1 + (1 + e.length + 2) + 0) (by omega) hall.2
        rw [heq]
        refine ⟨_, bwf, rfl, hbwf, ?_⟩
        intro c hc L hL
        rw [hpre] at hL
        simp only [List.cons_append, List.nil_append, List.append_assoc] at hL
        rw [lla_crlf, lla_tab, lla_chunk e _ 1 hcr] at hL
        rcases List.mem_cons.mp hL with h1 | h1
        · exact h1 ▸ le_max_right 77 c
        · have hb := hlines (1 + (e.length + 2)) (by omega) L h1
          calc L ≤ max 77 (1 + (e.length + 2)) := hb
            _ = 77 := max_eq_left (by omega)
            _ ≤ max 77 c := le_max_left 77 c
      · -- fold taken, separator written after the element
        simp only [if_pos hf, if_neg hre]
        obtain ⟨os, bwf, heq, hbwf, hlines⟩ := ih (1 + (1 + e.length + 2) + 1) (by omega) hall.2
        rw [heq]
        refine ⟨_, bwf, rfl, hbwf, ?_⟩
        intro c hc L hL
        rw [hpre] at hL
        simp only [List.cons_append, List.nil_append, List.append_assoc] at hL
        rw [lla_crlf, lla_tab, lla_chunk e _ 1 hcr, lla_flat (bs ", ") _ _ hsep13] at hL
        rcases List.mem_cons.mp hL with h1 | h1
        · exact h1 ▸ le_max_right 77 c
        · have hb := hlines (1 + (e.length + 2) + (bs ", ").length)
            (by rw [hsl2]; omega) L h1
          calc L ≤ max 77 (1 + (e.length + 2) + (bs ", ").length) := hb
            _ = 77 := max_eq_left (by rw [hsl2]; omega)
            _ ≤ max 77 c := le_max_left 77 c
    · by_cases hre : rest.isEmpty = true
      · -- no fold, last element
        simp only [if_neg hf, if_pos hre]
        obtain ⟨os, bwf, heq, hbwf, hlines⟩ := ih (bw + (bw + e.length + 2) + 0)
          (by omega) hall.2
        rw [heq]
        refine ⟨_, bwf, rfl, hbwf, ?_⟩
        intro c hc L hL
        simp only [List.cons_append, List.nil_append, List.append_assoc] at hL
        rw [lla_chunk e _ c hcr] at hL
        have hb := hlines (c + (e.length + 2)) (by omega) L hL
        calc L ≤ max 77 (c + (e.length + 2)) := hb
          _ = 77 := max_eq_left (by omega)
          _ ≤ max 77 c := le_max_left 77 c
      · -- no fold, separator written after the element
        simp only [if_neg hf, if_neg hre]
        obtain ⟨os, bwf, heq, hbwf, hlines⟩ := ih (bw + (bw + e.length + 2) + 1)
          (by omega) hall.2
        rw [heq]
        refine ⟨_, bwf, rfl, hbwf, ?_⟩
        intro c hc L hL
        simp only [List.cons_append, List.nil_append, List.append_assoc] at hL
        rw [lla_chunk e _ c hcr, lla_flat (bs ", ") _ _ hsep13] at hL
        have hb := hlines (c + (e.length + 2) + (bs ", ").length)
          (by rw [hsl2]; omega) L hL
        calc L ≤ max 77 (c + (e.length + 2) + (bs ", ").length) := hb
          _ = 77 := max_eq_left (by rw [hsl2]; omega)
          _ ≤ max 77 c := le_max_left 77 c

/-- C2 counterexample: rendered from column 4 (as after `To: `), the list of a
69-byte nameless address followed by `b@b` produces a first line of 77 bytes
(the 75-column line gets the two-byte `", "` separator before the fold check of
the next element runs), although no display name is present (no encoded words)
and every email is at most 76 bytes, so the claim's exception does not apply. -/
theorem c2_line_over_76_counterexample :
    (Address.write_header (.list [.address ⟨none, ⟨List.replicate 69 'a'⟩⟩,
        .address ⟨none, "b@b"⟩]) 4).map (fun r => lineLengthsAux r.1 4) =
      some [77, 6, 0] ∧
    (String.mk (List.replicate 69 'a')).length ≤ 76 ∧ ("b@b" : String).length ≤ 76 := by
  refine ⟨by decide, by decide, by decide⟩

/-- C2 as amended: the 76-byte bound fails because the two-byte `", "`/`"; "`
separators are written after an element that may legitimately end at column 75,
while the `Address::List` loop advances its column by only 1 per separator; the
bound that does hold is 77 (relative to the starting column).  Restricted to
the display-name-free lists the missing `rfc2047_encode` source cannot affect:
for every `Address::List` whose elements are all addresses without display
names, with emails of at most 72 bytes containing no CR, rendered from any
starting column `s ≥ 1`, every output line (the bytes between CRLFs, the first
line counted from column `s`) has length at most `max 77 s`. -/
theorem c2_fold_bound (items : List Address) (s : Nat) (hs : 1 ≤ s)
    (h : items.all plainShortAddress = true) :
    ∃ out, Address.write_header (.list items) s = some (out, 0) ∧
      ∀ L ∈ lineLengthsAux out s, L ≤ max 77 s := by
  obtain ⟨o, bwf, heq, _, hlines⟩ := c2aux items s hs h
  refine ⟨o ++ bs "\r\n", ?_, ?_⟩
  · rw [Address.write_header, heq]
    rfl
  · have hcrlf : bs "\r\n" = [13, 10] := by decide
    rw [hcrlf]
    exact hlines s le_rfl

/-- Witness for C2: five short nameless addresses from column 4; the theorem
applies and yields the 77-column bound. -/
theorem c2_fold_bound_witness :
    ∃ out, Address.write_header (.list [.address ⟨none, "a@example.com"⟩,
        .address ⟨none, "b@example.com"⟩, .address ⟨none, "c@example.com"⟩,
        .address ⟨none, "d@example.com"⟩, .address ⟨none, "e@example.com"⟩]) 4 =
        some (out, 0) ∧
      ∀ L ∈ lineLengthsAux out 4, L ≤ max 77 4 :=
  c2_fold_bound [.address ⟨none, "a@example.com"⟩, .address ⟨none, "b@example.com"⟩,
    .address ⟨none, "c@example.com"⟩, .address ⟨none, "d@example.com"⟩,
    .address ⟨none, "e@example.com"⟩] 4 (by omega) (by decide)

/-! ### C4 -/

set_option maxRecDepth 4000 in
/-- C4: evaluation of `write_part` at a multipart part whose stored
Content-Type is the opaque raw value `multipart/related; boundary="abc"` with
one text child.  The parsed boundary `abc` is indeed used in the delimiter
lines, but the raw value itself is never written: the output contains
`Content-Type: ` followed directly by the blank line (the branch that finds
`boundary="` in the raw value returns the boundary without writing anything,
unlike the branch that appends a fresh boundary), so the raw bytes
`multipart/related` appear nowhere in the output. -/
theorem c4_raw_boundary_drops_value :
    MimePart.write_part (fun _ => "B")
        (.mk [("Content-Type", .raw ("multipart/related; boundary=" ++ ⟨[Char.ofNat 34]⟩ ++
            "abc" ++ ⟨[Char.ofNat 34]⟩))]
          (.multipart [.mk [] (.text "Hi")])) =
      some (bs "Content-Type: \r\n\r\n--abc\r\nContent-Transfer-Encoding: 7bit\r\n\r\nHi\r\n--abc--\r\n") ∧
    ¬(bs "multipart/related" <:+:
      bs "Content-Type: \r\n\r\n--abc\r\nContent-Transfer-Encoding: 7bit\r\n\r\nHi\r\n--abc--\r\n") := by
  constructor
  · rw [MimePart.write_part]
    simp only [loopGo]
    have h1 : resolve_ct (fun _ => "B") 0
        (assocGet "Content-Type"
          [("Content-Type",
              HeaderType.raw
                ("multipart/related; boundary=" ++ ⟨[Char.ofNat 34]⟩ ++ "abc" ++
                  ⟨[Char.ofNat 34]⟩))]) =
        some ([], some "abc", 0) := by decide
    rw [h1]
    simp only [loopGo]
    decide
  · decide

/-! ### C1 -/

theorem weight_pos (p : MimePart) : 1 ≤ p.weight := by
  obtain ⟨hs, b⟩ := p
  simp [MimePart.weight]

theorem resolve_ct_isSome (supply : Nat → String) (idx : Nat) (hv : Option HeaderType)
    {r : Bytes × Option String × Nat} (h : resolve_ct supply idx hv = some r) :
    r.2.1.isSome = true := by
  match hv with
  | none =>
    rw [resolve_ct] at h
    cases h
    rfl
  | some (.contentType ct) =>
    rw [resolve_ct] at h
    cases hb : assocGet "boundary" ct.attributes with
    | none =>
      rw [hb] at h
      simp only [Option.isNone_none, if_pos] at h
      cases h
      simp only [assocGet_insert_self]
      rfl
    | some b =>
      rw [hb] at h
      simp only [Option.isNone_some, Bool.false_eq_true, if_false] at h
      cases h
      simp only [hb]
      rfl
  | some (.raw s) =>
    rw [resolve_ct] at h
    cases hfb : findRawBoundary s with
    | none =>
      rw [hfb] at h
      cases h
      rfl
    | some b =>
      rw [hfb] at h
      cases h
      rfl
  | some (.text t) =>
    simp [resolve_ct] at h
  | some (.messageId i) =>
    simp [resolve_ct] at h

theorem loopGo_children (supply : Nat → String) :
    ∀ n cs, listWeight cs ≤ n → ∀ bd stack idx,
      loopGo supply cs (some bd) stack idx =
        (match renderChildrenSpec supply idx (some bd) cs with
         | none => none
         | some r => (loopGo supply [] (some bd) stack r.2).map (fun tl => r.1 ++ tl)) := by
  intro n
  induction n with
  | zero =>
    intro cs hcs bd stack idx
    cases cs with
    | nil =>
      simp only [renderChildrenSpec]
      cases h : loopGo supply [] (some bd) stack idx <;> simp
    | cons p t =>
      exfalso
      have hp := weight_pos p
      simp only [listWeight] at hcs
      omega
  | succ n ihn =>
    intro cs hcs bd stack idx
    cases cs with
    | nil =>
      simp only [renderChildrenSpec]
      cases h : loopGo supply [] (some bd) stack idx <;> simp
    | cons p rest =>
      obtain ⟨hs, body⟩ := p
      have hwp : 1 ≤ (MimePart.mk hs body).weight := weight_pos _
      have hrest : listWeight rest ≤ n := by
        simp only [listWeight] at hcs
        omega
      cases body with
      | text t =>
        simp only [loopGo, renderChildrenSpec, renderPartSpec]
        rw [ihn rest hrest bd stack idx]
        cases hcr : renderChildrenSpec supply idx (some bd) rest with
        | none => simp
        | some r => simp [Option.map_map, List.append_assoc, Function.comp_def]
      | binary bin =>
        simp only [loopGo, renderChildrenSpec, renderPartSpec]
        rw [ihn rest hrest bd stack idx]
        cases hcr : renderChildrenSpec supply idx (some bd) rest with
        | none => simp
        | some r => simp [Option.map_map, List.append_assoc, Function.comp_def]
      | multipart cs2 =>
        have hcs2 : listWeight cs2 ≤ n := by
          simp only [listWeight, MimePart.weight, BodyPart.weight] at hcs
          omega
        simp only [loopGo, renderChildrenSpec, renderPartSpec]
        cases hres : resolve_ct supply idx (assocGet "Content-Type" hs) with
        | none => simp
        | some r =>
          obtain ⟨ctOut, b2, idx2⟩ := r
          obtain ⟨bd2, rfl⟩ : ∃ b0, b2 = some b0 :=
            Option.isSome_iff_exists.mp (resolve_ct_isSome supply idx _ hres)
          simp only []
          rw [ihn cs2 hcs2 bd2 ((rest, some bd) :: stack) idx2]
          cases hc2 : renderChildrenSpec supply idx2 (some bd2) cs2 with
          | none => simp
          | some r2 =>
            simp only [loopGo]
            rw [ihn rest hrest bd stack r2.2]
            cases hcr : renderChildrenSpec supply r2.2 (some bd) rest with
            | none => simp
            | some r3 => simp [Option.map_map, List.append_assoc, Function.comp_def]

/-- C1: `write_part` consumes the tree with an explicit stack of
(sibling-cursor, boundary) frames (`loopGo`), pushed when descending into a
multipart whose parent boundary is active and popped when a cursor is
exhausted, and its output equals the structural specification renderer
`write_part_spec`, in which every multipart node writes exactly one opening
delimiter `\r\n--boundary\r\n` per child (immediately before that child's own
output) and exactly one closing delimiter `\r\n--boundary--\r\n` after the
last child, so a nested multipart's delimiters sit strictly inside its
parent's opening/closing pair; moreover the boundary resolution of a
multipart node always yields a boundary (the `none` branch of the spec
renderer is never taken). -/
theorem c1_write_part_structural (supply : Nat → String) (p : MimePart) :
    MimePart.write_part supply p = write_part_spec supply p ∧
    ∀ idx hv r, resolve_ct supply idx hv = some r → r.2.1.isSome = true := by
  constructor
  · obtain ⟨hs, body⟩ := p
    cases body with
    | text t =>
      rw [MimePart.write_part, write_part_spec]
      simp [loopGo, renderPartSpec]
    | binary bin =>
      rw [MimePart.write_part, write_part_spec]
      simp [loopGo, renderPartSpec]
    | multipart cs =>
      rw [MimePart.write_part, write_part_spec]
      simp only [loopGo, renderPartSpec]
      cases hres : resolve_ct supply 0 (assocGet "Content-Type" hs) with
      | none => simp
      | some r =>
        obtain ⟨ctOut, b2, idx2⟩ := r
        obtain ⟨bd, rfl⟩ : ∃ b0, b2 = some b0 :=
          Option.isSome_iff_exists.mp (resolve_ct_isSome supply 0 _ hres)
        dsimp only
        rw [loopGo_children supply (listWeight cs) cs le_rfl bd [] idx2]
        cases hcs : renderChildrenSpec supply idx2 (some bd) cs with
        | none => simp
        | some r2 =>
          simp only [loopGo]
          simp [Option.map_map, List.append_assoc, Function.comp_def]
  · intro idx hv r h
    exact resolve_ct_isSome supply idx hv h

/-- Witness for C1: a header-less multipart with one text child; the stack
machine and the structural renderer agree, and the boundary resolution of the
synthesized `multipart/mixed` Content-Type yields a boundary. -/
theorem c1_write_part_structural_witness :
    MimePart.write_part (fun _ => "B0") (.mk [] (.multipart [.mk [] (.text "Hi")])) =
      write_part_spec (fun _ => "B0") (.mk [] (.multipart [.mk [] (.text "Hi")])) ∧
    ((((ContentType.new "multipart/mixed").attribute "boundary" "B0").render 14,
        (some "B0" : Option String), 1) : Bytes × Option String × Nat).2.1.isSome = true :=
  ⟨(c1_write_part_structural (fun _ => "B0") (.mk [] (.multipart [.mk [] (.text "Hi")]))).1,
   (c1_write_part_structural (fun _ => "B0") (.mk [] (.multipart [.mk [] (.text "Hi")]))).2
     0 none _ (by decide)⟩
